import Mathlib

/-
  Shallow embedding of the discovery subsystem of miniDistributedSys.

  Source of authority:
  - registry service code (registry struct, add, notify, sendRequireServices,
    sendPatch, remove, RegistryService.ServeHTTP), embedded in the repository
    README next to the project description;
  - registry/client.go (providers.Update, providers.get, GetProvider);
  - registry/registration.go (Registration, ServiceName, patch, patchEntry).

  Modelling conventions:
  - Go strings are Lean String; the ServiceName alias is String.
  - Go slices are Lean List; Go slice splicing append(s[:i], t...) is
    List.take and List.append, which is what the Go memmove semantics give.
  - The Go map from ServiceName to a string slice is a Lean function from
    String to Option (List String); a key that was never created is none.
  - Network delivery (sendPatch, i.e. json.Marshal plus http.Post) is an
    oracle, a parameter of type patch to String to Option String returning
    none on success and some message on failure. json.Marshal never fails on
    these types, so the oracle covers exactly the http.Post outcome.
  - Goroutine fan-out is sequentialized in registration order; the claims
    under study are about which deliveries happen and with which payload,
    not about interleaving.
  - In the source remove mixes the package level variable reg with the
    receiver r; both denote the single global registry instance, so the
    embedding uses one registration list.
-/

namespace MiniReg

/-- Registration mirrors the struct of registry/registration.go: a service
name, the unique instance URL, the list of required service names, and the
callback URL that receives patches. -/
structure Registration where
  ServiceName : String
  ServiceURL : String
  RequireServices : List String
  ServiceUpdateURL : String
deriving DecidableEq

/-- patchEntry mirrors registry/registration.go: one name and URL pair. -/
structure patchEntry where
  Name : String
  URL : String
deriving DecidableEq

/-- patch mirrors registry/registration.go: added and removed entry lists. -/
structure patch where
  Added : List patchEntry
  Removed : List patchEntry
deriving DecidableEq

/-- Send is the delivery oracle standing for sendPatch (http.Post): none is
success, some msg is the delivery error. -/
def Send : Type := patch → String → Option String

/-- sendOk is the always successful delivery oracle. -/
def sendOk : Send := fun _ _ => none

/-- notifyOne embeds the body of one goroutine of registry.notify: it walks
the RequireServices of one registration; for each required name it filters
the full patch down to the entries of that name (sendUpdate is true exactly
when the filtered patch is nonempty), sends the filtered patch to the
callback URL, and on a delivery error logs and returns, abandoning the rest
of the loop. The result lists the attempted deliveries with their
outcomes. -/
def notifyOne (send : Send) (fullPatch : patch) (upd : String) :
    List String → List (patch × String × Option String)
  | [] => []
  | q :: rest =>
      if (fullPatch.Added.filter (fun a => a.Name == q)).isEmpty
          && (fullPatch.Removed.filter (fun a => a.Name == q)).isEmpty then
        notifyOne send fullPatch upd rest
      else
        match send ⟨fullPatch.Added.filter (fun a => a.Name == q),
                    fullPatch.Removed.filter (fun a => a.Name == q)⟩ upd with
        | none =>
            (⟨fullPatch.Added.filter (fun a => a.Name == q),
              fullPatch.Removed.filter (fun a => a.Name == q)⟩, upd, none)
              :: notifyOne send fullPatch upd rest
        | some e =>
            [(⟨fullPatch.Added.filter (fun a => a.Name == q),
               fullPatch.Removed.filter (fun a => a.Name == q)⟩, upd, some e)]

/-- notify embeds registry.notify: one goroutine per registration in the
list, each running notifyOne on that registration. No registration is
skipped: the subject of the event itself is notified when it requires the
changed name. -/
def notify (send : Send) (regs : List Registration) (fullPatch : patch) :
    List (patch × String × Option String) :=
  match regs with
  | [] => []
  | r :: rest =>
      notifyOne send fullPatch r.ServiceUpdateURL r.RequireServices
        ++ notify send rest fullPatch

/-- requireEntries embeds the double loop of registry.sendRequireServices:
outer loop over the registration list, inner loop over the RequireServices
of the new registration, collecting an entry for every match. -/
def requireEntries (regs : List Registration) (reg : Registration) :
    List patchEntry :=
  match regs with
  | [] => []
  | serviceReg :: rest =>
      (reg.RequireServices.filterMap (fun reqService =>
        if serviceReg.ServiceName = reqService then
          some ⟨serviceReg.ServiceName, serviceReg.ServiceURL⟩
        else none))
        ++ requireEntries rest reg

/-- requirePatch is the patch built by registry.sendRequireServices: the
collected entries as Added and an empty Removed (var p patch starts with
nil slices). -/
def requirePatch (regs : List Registration) (reg : Registration) : patch :=
  ⟨requireEntries regs reg, []⟩

/-- AddRun records one execution of registry.add: the registration list
afterwards, the initial sync patch and its target, every attempted delivery
with its outcome, and the returned error. -/
structure AddRun where
  regs : List Registration
  initialPatch : patch
  initialTarget : String
  deliveries : List (patch × String × Option String)
  ret : Option String

/-- add embeds registry.add: append the registration (no validation of any
kind is performed), run sendRequireServices against the just updated list
(so the new registration itself is scanned too), then notify every
registration of the Added event; the value returned is exactly the error of
the initial sync delivery. -/
def add (send : Send) (regs : List Registration) (reg : Registration) :
    AddRun :=
  { regs := regs ++ [reg]
    initialPatch := requirePatch (regs ++ [reg]) reg
    initialTarget := reg.ServiceUpdateURL
    deliveries :=
      (requirePatch (regs ++ [reg]) reg, reg.ServiceUpdateURL,
        send (requirePatch (regs ++ [reg]) reg) reg.ServiceUpdateURL)
        :: notify send (regs ++ [reg]) ⟨[⟨reg.ServiceName, reg.ServiceURL⟩], []⟩
    ret := send (requirePatch (regs ++ [reg]) reg) reg.ServiceUpdateURL }

/-- findURLIdx mirrors the search loop of registry.remove: the index of the
first registration whose ServiceURL equals the argument. -/
def findURLIdx (regs : List Registration) (url : String) : Option Nat :=
  match regs with
  | [] => none
  | r :: rest =>
      if r.ServiceURL = url then some 0
      else (findURLIdx rest url).map (· + 1)

/-- RemoveRun records one execution of registry.remove. -/
structure RemoveRun where
  regs : List Registration
  deliveries : List (patch × String × Option String)
  ret : Option String

/-- remove embeds registry.remove: find the first registration with the
given URL; if none, return the not found error and leave the list alone.
Otherwise notify first (over the full list, the matched entry included) and
then splice the list. The source splices with
append(registrations take i, registrations take i plus one) which keeps the
matched entry and duplicates the prefix; the embedding reproduces that
faithfully as List.take i concatenated with List.take (i + 1). -/
def remove (send : Send) (regs : List Registration) (url : String) :
    RemoveRun :=
  match findURLIdx regs url with
  | some i =>
      let target := regs.getD i ⟨"", "", [], ""⟩
      { regs := regs.take i ++ regs.take (i + 1)
        deliveries :=
          notify send regs ⟨[], [⟨target.ServiceName, target.ServiceURL⟩]⟩
        ret := none }
  | none =>
      { regs := regs
        deliveries := []
        ret := some ("service at url " ++ url ++ " not found") }

/-- Reachable is the set of directory states obtainable from the empty
registry by the add and remove operations of the source. The state
component does not depend on the delivery oracle, so sendOk is used. -/
inductive Reachable : List Registration → Prop
  | empty : Reachable []
  | stepAdd (regs : List Registration) (reg : Registration) :
      Reachable regs → Reachable (add sendOk regs reg).regs
  | stepRemove (regs : List Registration) (url : String) :
      Reachable regs → Reachable (remove sendOk regs url).regs

/-- Cache is the provider map of registry/client.go: service name to the
slice of provider URLs; none stands for a key that was never created. -/
def Cache : Type := String → Option (List String)

/-- emptyCache is the initial provider map. -/
def emptyCache : Cache := fun _ => none

/-- addEntryC embeds the Added branch of providers.Update for one entry: if
the key is absent an empty slice is created first, then the URL is appended;
getD formulates both cases at once. -/
def addEntryC (c : Cache) (e : patchEntry) : Cache :=
  fun n => if n = e.Name then some (((c e.Name).getD []) ++ [e.URL]) else c n

/-- removeFirst embeds the Removed branch inner loop of providers.Update:
the first exact match is spliced out with append(s take i, s drop i plus
one) and the loop breaks; with no match the slice is untouched. -/
def removeFirst : List String → String → List String
  | [], _ => []
  | x :: xs, u => if x = u then xs else x :: removeFirst xs u

/-- removeEntryC embeds the Removed branch of providers.Update for one
entry: only an existing key is touched, and its slice loses the first
exact match. -/
def removeEntryC (c : Cache) (e : patchEntry) : Cache :=
  fun n =>
    if n = e.Name then (c e.Name).map (fun l => removeFirst l e.URL) else c n

/-- Update embeds providers.Update: all Added entries are processed in
order, then all Removed entries. -/
def Update (c : Cache) (p : patch) : Cache :=
  p.Removed.foldl removeEntryC (p.Added.foldl addEntryC c)

/-- GetOutcome is the observable result of providers.get: a URL, the no
providers error, or the Go runtime panic of indexing out of range. -/
inductive GetOutcome where
  | ok (url : String)
  | notFound
  | panicked
deriving DecidableEq

/-- get embeds providers.get. The draw argument stands for the value of
int(rand.Float32() times float32(len(providers))); when the slice is empty
that expression is always 0 and providers[0] is an out of range index,
which the embedding reports as panicked. The key test is ok on the map, so
a key holding an empty slice is found. -/
def get (c : Cache) (name : String) (draw : Nat) : GetOutcome :=
  match c name with
  | none => GetOutcome.notFound
  | some l =>
      match l.get? draw with
      | some u => GetOutcome.ok u
      | none => GetOutcome.panicked

/-- findURLIdx is none exactly when no registration carries the URL. -/
theorem findURLIdx_eq_none (url : String) :
    ∀ regs : List Registration,
      (∀ r, r ∈ regs → r.ServiceURL ≠ url) → findURLIdx regs url = none
  | [], _ => rfl
  | r :: rest, h => by
      have hr : r.ServiceURL ≠ url := h r (List.mem_cons_self r rest)
      have hrest :=
        findURLIdx_eq_none url rest (fun x hx => h x (List.mem_cons_of_mem r hx))
      simp [findURLIdx, hr, hrest]

/-- r1ex is a single registration at URL u, used to exercise remove. -/
def r1ex : Registration := ⟨"A", "u", [], "cb"⟩

/-- Claim C1 (status code_bug). For a URL present in the list the source
remove reports success, yet the slice splice
append(registrations take i, registrations take i plus one) leaves the
matched registration in place: removing the only registration of the
directory returns no error and removes nothing. The spec (design note on
the reference removal logic) states the intent as deleting exactly the
matched entry. -/
theorem claim_C1_remove_bug :
    (remove sendOk [r1ex] "u").ret = none
    ∧ (remove sendOk [r1ex] "u").regs = [r1ex]
    ∧ r1ex.ServiceURL = "u" := by
  refine ⟨rfl, ?_, rfl⟩
  rfl

/-- patchAddX adds provider u1 for name X. -/
def patchAddX : patch := ⟨[⟨"X", "u1"⟩], []⟩

/-- patchRemoveX removes provider u1 for name X. -/
def patchRemoveX : patch := ⟨[], [⟨"X", "u1"⟩]⟩

/-- c2state is the provider cache after applying the add patch and then the
remove patch for the same entry, starting from the empty cache. -/
def c2state : Cache := Update (Update emptyCache patchAddX) patchRemoveX

/-- Claim C2 (status code_bug). After Added and then Removed of the same
entry the key X still exists and holds the empty slice, so get finds the
key, and for every possible random draw the lookup indexes the empty slice
out of range, the Go runtime panic, instead of returning the no providers
error required by the spec. -/
theorem claim_C2_lookup_panics :
    c2state "X" = some []
    ∧ (∀ draw : Nat, get c2state "X" draw = GetOutcome.panicked)
    ∧ (∀ draw : Nat, get c2state "X" draw ≠ GetOutcome.notFound) := by
  have hx : c2state "X" = some [] := by rfl
  refine ⟨hx, ?_, ?_⟩
  · intro draw
    simp [get, hx]
  · intro draw
    simp [get, hx]

/-- Claim C6 (status confirmed). Removing a URL that no live registration
carries returns the not found error, leaves the registration list exactly
as it was, and attempts no delivery. -/
theorem claim_C6 (send : Send) (regs : List Registration) (url : String)
    (h : ∀ r, r ∈ regs → r.ServiceURL ≠ url) :
    (remove send regs url).ret = some ("service at url " ++ url ++ " not found")
    ∧ (remove send regs url).regs = regs
    ∧ (remove send regs url).deliveries = [] := by
  have hidx := findURLIdx_eq_none url regs h
  refine ⟨?_, ?_, ?_⟩ <;> simp [remove, hidx]

/-- regB is a live registration of service B requiring A. -/
def regB : Registration := ⟨"B", "ub", ["A"], "cbB"⟩

/-- Witness for claim C6 at a concrete directory and unknown URL. -/
theorem claim_C6_witness :
    (remove sendOk [regB] "nope").ret
        = some ("service at url " ++ "nope" ++ " not found")
    ∧ (remove sendOk [regB] "nope").regs = [regB]
    ∧ (remove sendOk [regB] "nope").deliveries = [] :=
  claim_C6 sendOk [regB] "nope" (by decide)

/-- addedEffect is the effect on the slice of a single name of processing a
list of Added entries: each step appends the URL to the slice, creating the
slice when the key was absent. -/
def addedEffect (v : Option (List String)) (es : List patchEntry) :
    Option (List String) :=
  es.foldl (fun v e => some ((v.getD []) ++ [e.URL])) v

/-- removedEffect is the effect on the slice of a single name of processing
a list of Removed entries: each step deletes the first exact match from an
existing slice and does nothing to an absent key. -/
def removedEffect (v : Option (List String)) (es : List patchEntry) :
    Option (List String) :=
  es.foldl (fun v e => v.map (fun l => removeFirst l e.URL)) v

/-- Folding addEntryC and observing one name sees exactly the Added entries
of that name. -/
theorem foldl_addEntryC_apply (n : String) :
    ∀ (es : List patchEntry) (c : Cache),
      (es.foldl addEntryC c) n
        = addedEffect (c n) (es.filter (fun e => e.Name == n))
  | [], _ => rfl
  | e :: es, c => by
      rw [List.foldl_cons, foldl_addEntryC_apply n es (addEntryC c e)]
      rcases eq_or_ne e.Name n with h | h
      · have hstep : (addEntryC c e) n = some (((c n).getD []) ++ [e.URL]) := by
          simp [addEntryC, h]
        rw [hstep]
        simp [List.filter_cons, h, addedEffect]
      · have hstep : (addEntryC c e) n = c n := by
          simp [addEntryC, Ne.symm h]
        rw [hstep]
        simp [List.filter_cons, h]

/-- Folding removeEntryC and observing one name sees exactly the Removed
entries of that name. -/
theorem foldl_removeEntryC_apply (n : String) :
    ∀ (es : List patchEntry) (c : Cache),
      (es.foldl removeEntryC c) n
        = removedEffect (c n) (es.filter (fun e => e.Name == n))
  | [], _ => rfl
  | e :: es, c => by
      rw [List.foldl_cons, foldl_removeEntryC_apply n es (removeEntryC c e)]
      rcases eq_or_ne e.Name n with h | h
      · have hstep : (removeEntryC c e) n
            = (c n).map (fun l => removeFirst l e.URL) := by
          simp [removeEntryC, h]
        rw [hstep]
        simp [List.filter_cons, h, removedEffect]
      · have hstep : (removeEntryC c e) n = c n := by
          simp [removeEntryC, Ne.symm h]
        rw [hstep]
        simp [List.filter_cons, h]

/-- Update observed at one name applies the Added entries of that name and
then the Removed entries of that name; entries of other names leave the
slice untouched. -/
theorem Update_apply (c : Cache) (p : patch) (n : String) :
    Update c p n
      = removedEffect
          (addedEffect (c n) (p.Added.filter (fun e => e.Name == n)))
          (p.Removed.filter (fun e => e.Name == n)) := by
  unfold Update
  rw [foldl_removeEntryC_apply, foldl_addEntryC_apply]

/-- removeFirst deletes exactly the first occurrence: the prefix before the
first match is kept, the match is dropped, the rest is kept; with no match
the whole list is the untouched prefix. -/
theorem removeFirst_spliceFirst (u : String) :
    ∀ l : List String,
      removeFirst l u
        = l.takeWhile (fun x => x != u) ++ (l.dropWhile (fun x => x != u)).drop 1
  | [] => rfl
  | x :: xs => by
      rcases eq_or_ne x u with h | h
      · subst h
        simp [removeFirst, List.takeWhile_cons, List.dropWhile_cons]
      · simp [removeFirst, List.takeWhile_cons, List.dropWhile_cons, h,
          removeFirst_spliceFirst u xs]

/-- Claim C8 (status confirmed). Update processes each Added entry by
appending its URL to the slice of its name, creating the key when absent,
and each Removed entry by deleting only the first exact match from the
slice of its name when one exists, leaving the slice untouched otherwise;
entries never touch the slice of another name. -/
theorem claim_C8 :
    (∀ (c : Cache) (p : patch) (n : String),
        Update c p n
          = removedEffect
              (addedEffect (c n) (p.Added.filter (fun e => e.Name == n)))
              (p.Removed.filter (fun e => e.Name == n)))
    ∧ (∀ (l : List String) (u : String),
        removeFirst l u
          = l.takeWhile (fun x => x != u)
              ++ (l.dropWhile (fun x => x != u)).drop 1) :=
  ⟨Update_apply, fun l u => removeFirst_spliceFirst u l⟩

/-- Witness for claim C8 at a concrete cache, patch and name. -/
theorem claim_C8_witness :
    Update emptyCache patchAddX "X"
      = removedEffect
          (addedEffect (emptyCache "X")
            (patchAddX.Added.filter (fun e => e.Name == "X")))
          (patchAddX.Removed.filter (fun e => e.Name == "X")) :=
  claim_C8.1 emptyCache patchAddX "X"

/-- addedEffect keeps an existing key existing. -/
theorem addedEffect_isSome :
    ∀ (es : List patchEntry) (v : Option (List String)),
      v.isSome = true → (addedEffect v es).isSome = true
  | [], _, h => h
  | _ :: es, v, _ => by
      rw [addedEffect, List.foldl_cons]
      exact addedEffect_isSome es _ rfl

/-- removedEffect never creates and never deletes a key. -/
theorem removedEffect_isSome :
    ∀ (es : List patchEntry) (v : Option (List String)),
      (removedEffect v es).isSome = v.isSome
  | [], _ => rfl
  | e :: es, v => by
      calc (removedEffect v (e :: es)).isSome
          = (removedEffect (v.map (fun l => removeFirst l e.URL)) es).isSome :=
            rfl
        _ = (v.map (fun l => removeFirst l e.URL)).isSome :=
            removedEffect_isSome es (v.map (fun l => removeFirst l e.URL))
        _ = v.isSome := by cases v <;> rfl

/-- Claim C10 (status confirmed). A key once created is never deleted by
Update: if a name maps to a slice before a patch it still maps to a slice
afterwards, and removing the last URL of a name leaves the name mapped to
the empty slice rather than absent. -/
theorem claim_C10 :
    (∀ (c : Cache) (p : patch) (n : String),
        (c n).isSome = true → (Update c p n).isSome = true)
    ∧ (∀ (c : Cache) (e : patchEntry),
        c e.Name = some [e.URL] → Update c ⟨[], [e]⟩ e.Name = some []) := by
  constructor
  · intro c p n h
    rw [Update_apply, removedEffect_isSome]
    exact addedEffect_isSome _ _ h
  · intro c e h
    rw [Update_apply]
    simp [h, addedEffect, removedEffect, removeFirst]

/-- c10cache is a concrete cache holding one provider for X. -/
def c10cache : Cache := fun n => if n = "X" then some ["u1"] else none

/-- Witness for claim C10 at a concrete cache: the key survives the patch
that removes its only URL, and ends at the empty slice. -/
theorem claim_C10_witness :
    (c10cache "X").isSome = true
    ∧ (Update c10cache patchRemoveX "X").isSome = true
    ∧ Update c10cache ⟨[], [⟨"X", "u1"⟩]⟩ "X" = some [] := by
  refine ⟨by decide, ?_, ?_⟩
  · exact claim_C10.1 c10cache patchRemoveX "X" (by decide)
  · exact claim_C10.2 c10cache ⟨"X", "u1"⟩ (by decide)

/-- addedEvent is the single entry patch of an add event for service S at
URL U, exactly the patch registry.add hands to notify. -/
def addedEvent (S U : String) : patch := ⟨[⟨S, U⟩], []⟩

/-- removedEvent is the single entry patch of a remove event for service S
at URL U, exactly the patch registry.remove hands to notify. -/
def removedEvent (S U : String) : patch := ⟨[], [⟨S, U⟩]⟩

/-- Membership in notify decomposes into membership in the goroutine of one
of the registrations. -/
theorem mem_notify (send : Send) (fullPatch : patch)
    (d : patch × String × Option String) :
    ∀ regs : List Registration,
      d ∈ notify send regs fullPatch
        ↔ ∃ r, r ∈ regs
            ∧ d ∈ notifyOne send fullPatch r.ServiceUpdateURL r.RequireServices
  | [] => by simp [notify]
  | r :: rest => by
      rw [notify]
      simp only [List.mem_append, mem_notify send fullPatch d rest,
        List.mem_cons]
      constructor
      · rintro (hd | ⟨t, ht, hd⟩)
        · exact ⟨r, Or.inl rfl, hd⟩
        · exact ⟨t, Or.inr ht, hd⟩
      · rintro ⟨t, ht | ht, hd⟩
        · subst ht
          exact Or.inl hd
        · exact Or.inr ⟨t, ht, hd⟩

/-- With the successful oracle, the goroutine for an add event delivers the
single entry patch once per occurrence of S among the required names, and
nothing else. -/
theorem mem_notifyOne_added (S U upd : String)
    (d : patch × String × Option String) :
    ∀ reqs : List String,
      d ∈ notifyOne sendOk (addedEvent S U) upd reqs
        ↔ S ∈ reqs ∧ d = (addedEvent S U, upd, (none : Option String))
  | [] => by simp [notifyOne]
  | q :: rest => by
      rcases eq_or_ne S q with hq | hq
      · subst hq
        have h1 : (addedEvent S U).Added.filter (fun a => a.Name == S)
            = [⟨S, U⟩] := by simp [addedEvent]
        have h2 : (addedEvent S U).Removed.filter (fun a => a.Name == S)
            = [] := by simp [addedEvent]
        rw [notifyOne, h1, h2]
        simp only [List.isEmpty_cons, List.isEmpty_nil, Bool.false_and,
          Bool.false_eq_true, if_false, sendOk, List.mem_cons,
          mem_notifyOne_added S U upd d rest]
        constructor
        · rintro (hd | ⟨_, hd⟩)
          · exact ⟨Or.inl trivial, by rw [hd]; rfl⟩
          · exact ⟨Or.inl trivial, hd⟩
        · rintro ⟨_, hd⟩
          exact Or.inl (by rw [hd]; rfl)
      · have h1 : (addedEvent S U).Added.filter (fun a => a.Name == q)
            = [] := by simp [addedEvent, hq]
        have h2 : (addedEvent S U).Removed.filter (fun a => a.Name == q)
            = [] := by simp [addedEvent]
        rw [notifyOne, h1, h2]
        simp only [List.isEmpty_nil, Bool.and_self, if_true,
          mem_notifyOne_added S U upd d rest, List.mem_cons]
        constructor
        · rintro ⟨hs, hd⟩
          exact ⟨Or.inr hs, hd⟩
        · rintro ⟨hs | hs, hd⟩
          · exact absurd hs hq
          · exact ⟨hs, hd⟩

/-- With the successful oracle, the goroutine for a remove event delivers
the single entry patch once per occurrence of S among the required names,
and nothing else. -/
theorem mem_notifyOne_removed (S U upd : String)
    (d : patch × String × Option String) :
    ∀ reqs : List String,
      d ∈ notifyOne sendOk (removedEvent S U) upd reqs
        ↔ S ∈ reqs ∧ d = (removedEvent S U, upd, (none : Option String))
  | [] => by simp [notifyOne]
  | q :: rest => by
      rcases eq_or_ne S q with hq | hq
      · subst hq
        have h1 : (removedEvent S U).Added.filter (fun a => a.Name == S)
            = [] := by simp [removedEvent]
        have h2 : (removedEvent S U).Removed.filter (fun a => a.Name == S)
            = [⟨S, U⟩] := by simp [removedEvent]
        rw [notifyOne, h1, h2]
        simp only [List.isEmpty_cons, List.isEmpty_nil, Bool.and_false,
          Bool.false_eq_true, if_false, sendOk, List.mem_cons,
          mem_notifyOne_removed S U upd d rest]
        constructor
        · rintro (hd | ⟨_, hd⟩)
          · exact ⟨Or.inl trivial, by rw [hd]; rfl⟩
          · exact ⟨Or.inl trivial, hd⟩
        · rintro ⟨_, hd⟩
          exact Or.inl (by rw [hd]; rfl)
      · have h1 : (removedEvent S U).Added.filter (fun a => a.Name == q)
            = [] := by simp [removedEvent]
        have h2 : (removedEvent S U).Removed.filter (fun a => a.Name == q)
            = [] := by simp [removedEvent, hq]
        rw [notifyOne, h1, h2]
        simp only [List.isEmpty_nil, Bool.and_self, if_true,
          mem_notifyOne_removed S U upd d rest, List.mem_cons]
        constructor
        · rintro ⟨hs, hd⟩
          exact ⟨Or.inr hs, hd⟩
        · rintro ⟨hs | hs, hd⟩
          · exact absurd hs hq
          · exact ⟨hs, hd⟩

/-- Claim C4 amended (status corrected). For an add or remove event about
service S at URL U, every delivery carries exactly the single entry patch
of the event, and the recipients are exactly the registrations of the
notified list whose RequireServices contains S, with no exclusion of the
instance that is the subject of the event: registry.notify is called on the
full list, after the append for an add and before the splice for a remove,
and filters only by required name, never by URL. -/
theorem claim_C4_amended (regs : List Registration) (S U : String) :
    (∀ d, d ∈ notify sendOk regs (addedEvent S U) →
        d.1 = addedEvent S U
        ∧ ∃ t, t ∈ regs ∧ S ∈ t.RequireServices ∧ d.2.1 = t.ServiceUpdateURL)
    ∧ (∀ t, t ∈ regs → S ∈ t.RequireServices →
        (addedEvent S U, t.ServiceUpdateURL, (none : Option String))
          ∈ notify sendOk regs (addedEvent S U))
    ∧ (∀ d, d ∈ notify sendOk regs (removedEvent S U) →
        d.1 = removedEvent S U
        ∧ ∃ t, t ∈ regs ∧ S ∈ t.RequireServices ∧ d.2.1 = t.ServiceUpdateURL)
    ∧ (∀ t, t ∈ regs → S ∈ t.RequireServices →
        (removedEvent S U, t.ServiceUpdateURL, (none : Option String))
          ∈ notify sendOk regs (removedEvent S U)) := by
  refine ⟨?_, ?_, ?_, ?_⟩
  · intro d hd
    rcases (mem_notify sendOk (addedEvent S U) d regs).mp hd with ⟨t, ht, hg⟩
    rcases (mem_notifyOne_added S U t.ServiceUpdateURL d
      t.RequireServices).mp hg with ⟨hs, hd'⟩
    subst hd'
    exact ⟨rfl, t, ht, hs, rfl⟩
  · intro t ht hs
    exact (mem_notify sendOk (addedEvent S U) _ regs).mpr
      ⟨t, ht, (mem_notifyOne_added S U t.ServiceUpdateURL _
        t.RequireServices).mpr ⟨hs, rfl⟩⟩
  · intro d hd
    rcases (mem_notify sendOk (removedEvent S U) d regs).mp hd with ⟨t, ht, hg⟩
    rcases (mem_notifyOne_removed S U t.ServiceUpdateURL d
      t.RequireServices).mp hg with ⟨hs, hd'⟩
    subst hd'
    exact ⟨rfl, t, ht, hs, rfl⟩
  · intro t ht hs
    exact (mem_notify sendOk (removedEvent S U) _ regs).mpr
      ⟨t, ht, (mem_notifyOne_removed S U t.ServiceUpdateURL _
        t.RequireServices).mpr ⟨hs, rfl⟩⟩

/-- regSelf is a registration that requires its own service name. -/
def regSelf : Registration := ⟨"A", "u", ["A"], "cb"⟩

/-- Counterexample for claim C4 as stated. The only live registration is
the subject of the event about service A at URL u, since its ServiceURL is
u; the claim excludes it from the targets, yet the source delivers the
patch to its callback URL. -/
theorem claim_C4_counterexample :
    (addedEvent "A" "u", "cb", (none : Option String))
        ∈ notify sendOk [regSelf] (addedEvent "A" "u")
    ∧ regSelf.ServiceURL = "u"
    ∧ regSelf.ServiceUpdateURL = "cb"
    ∧ regSelf.RequireServices = ["A"] := by
  refine ⟨?_, rfl, rfl, rfl⟩
  decide

/-- Witness for claim C4 amended: a dependent of A receives the add patch. -/
theorem claim_C4_witness :
    (addedEvent "A" "ua", "cbB", (none : Option String))
      ∈ notify sendOk [regB] (addedEvent "A" "ua") :=
  (claim_C4_amended [regB] "A" "ua").2.1 regB (by decide) (by decide)

/-- Membership in the entries collected by sendRequireServices: exactly one
entry per scanned registration whose name is required, carrying that
registration's name and URL. -/
theorem mem_requireEntries (reg : Registration) (e : patchEntry) :
    ∀ regs : List Registration,
      e ∈ requireEntries regs reg
        ↔ ∃ r, r ∈ regs ∧ r.ServiceName ∈ reg.RequireServices
            ∧ e = ⟨r.ServiceName, r.ServiceURL⟩
  | [] => by simp [requireEntries]
  | serviceReg :: rest => by
      rw [requireEntries]
      simp only [List.mem_append, List.mem_filterMap,
        mem_requireEntries reg e rest, List.mem_cons]
      constructor
      · rintro (⟨q, hq, hf⟩ | ⟨r, hr, hreq, he⟩)
        · rcases eq_or_ne serviceReg.ServiceName q with h | h
          · rw [if_pos h] at hf
            cases hf
            exact ⟨serviceReg, Or.inl rfl, h ▸ hq, rfl⟩
          · rw [if_neg h] at hf
            cases hf
        · exact ⟨r, Or.inr hr, hreq, he⟩
      · rintro ⟨r, hr | hr, hreq, he⟩
        · subst hr
          exact Or.inl ⟨r.ServiceName, hreq, by rw [if_pos rfl, he]⟩
        · exact Or.inr ⟨r, hr, hreq, he⟩

/-- Claim C7 amended (status corrected). The initial sync patch is Added
only and is addressed to the callback URL of the new registration, and its
entries are exactly the name and URL pairs of the registrations in the live
set after the new registration has been appended whose name is required by
it: the source appends first and scans afterwards, so the new registration
itself contributes an entry whenever its own name is among its required
services. With one live B instance at url1 and a newcomer requiring B this
still yields exactly the patch with the single Added entry for B at url1. -/
theorem claim_C7_amended (send : Send) (regs : List Registration)
    (reg : Registration) :
    (add send regs reg).initialPatch.Removed = []
    ∧ (add send regs reg).initialTarget = reg.ServiceUpdateURL
    ∧ ∀ e, e ∈ (add send regs reg).initialPatch.Added
        ↔ ∃ r, r ∈ regs ++ [reg] ∧ r.ServiceName ∈ reg.RequireServices
            ∧ e = ⟨r.ServiceName, r.ServiceURL⟩ :=
  ⟨rfl, rfl, fun e => mem_requireEntries reg e (regs ++ [reg])⟩

/-- specInitialEntries follows the words of the spec sentence for the
initial sync: the pairs of the already registered instances, the ones live
before the add, whose name is among the required services of the new
registration. -/
def specInitialEntries (prior : List Registration) (reg : Registration) :
    List patchEntry :=
  (prior.filter (fun r => reg.RequireServices.contains r.ServiceName)).map
    (fun r => ⟨r.ServiceName, r.ServiceURL⟩)

/-- Counterexample for claim C7 as stated. On an empty directory a
registration requiring its own name receives an initial patch containing
itself, while the already registered instances of the claim give the empty
entry list. -/
theorem claim_C7_counterexample :
    (add sendOk [] regSelf).initialPatch.Added = [⟨"A", "u"⟩]
    ∧ specInitialEntries [] regSelf = []
    ∧ (add sendOk [] regSelf).initialPatch.Added
        ≠ specInitialEntries [] regSelf := by
  refine ⟨?_, rfl, ?_⟩ <;> decide

/-- Witness for claim C7 amended at a concrete add: the shape conjuncts and
the entry characterization applied to the entry the newcomer receives. -/
theorem claim_C7_witness :
    (add sendOk [regB] regSelf).initialPatch.Removed = []
    ∧ (add sendOk [regB] regSelf).initialTarget = "cb"
    ∧ (⟨"A", "u"⟩ : patchEntry) ∈ (add sendOk [regB] regSelf).initialPatch.Added := by
  refine ⟨(claim_C7_amended sendOk [regB] regSelf).1, ?_, ?_⟩
  · exact (claim_C7_amended sendOk [regB] regSelf).2.1
  · exact ((claim_C7_amended sendOk [regB] regSelf).2.2 ⟨"A", "u"⟩).mpr
      ⟨regSelf, by decide, by decide, rfl⟩

/-- emptyFieldsReg is a registration whose name and URL are both empty. -/
def emptyFieldsReg : Registration := ⟨"", "", [], ""⟩

/-- Counterexample for claim C3 as stated. Adding a registration with empty
ServiceName and empty ServiceURL returns no error at all and appends it to
the live set: the source performs no validation. -/
theorem claim_C3_counterexample :
    (add sendOk [] emptyFieldsReg).ret = none
    ∧ (add sendOk [] emptyFieldsReg).regs = [emptyFieldsReg] := by
  exact ⟨rfl, rfl⟩

/-- Claim C3 amended (status corrected). The add operation performs no
validation: even a registration with an empty ServiceName or an empty
ServiceURL is appended to the live set, and the only error add can return
is the outcome of the initial sync delivery, never a validation error. -/
theorem claim_C3_amended (send : Send) (regs : List Registration)
    (reg : Registration)
    (_h : reg.ServiceName = "" ∨ reg.ServiceURL = "") :
    (add send regs reg).regs = regs ++ [reg]
    ∧ reg ∈ (add send regs reg).regs
    ∧ (add send regs reg).ret
        = send (requirePatch (regs ++ [reg]) reg) reg.ServiceUpdateURL :=
  ⟨rfl, List.mem_append_right regs (List.mem_cons_self reg []), rfl⟩

/-- Witness for claim C3 amended at the empty fields registration. -/
theorem claim_C3_witness :
    (add sendOk [] emptyFieldsReg).regs = [] ++ [emptyFieldsReg]
    ∧ emptyFieldsReg ∈ (add sendOk [] emptyFieldsReg).regs
    ∧ (add sendOk [] emptyFieldsReg).ret
        = sendOk (requirePatch ([] ++ [emptyFieldsReg]) emptyFieldsReg)
            emptyFieldsReg.ServiceUpdateURL :=
  claim_C3_amended sendOk [] emptyFieldsReg (Or.inl rfl)

/-- Claim C5 (status confirmed). The value add returns is exactly the
outcome of the initial sync delivery to the new registrant: it does not
depend on the outcome of any fan out delivery (two oracles agreeing on the
initial sync give the same return value however they differ elsewhere), and
whatever that outcome is, the new registration stays appended to the live
set: the add is never rolled back. -/
theorem claim_C5 (send send2 : Send) (regs : List Registration)
    (reg : Registration)
    (h : send (requirePatch (regs ++ [reg]) reg) reg.ServiceUpdateURL
        = send2 (requirePatch (regs ++ [reg]) reg) reg.ServiceUpdateURL) :
    (add send regs reg).ret = (add send2 regs reg).ret
    ∧ (add send regs reg).ret
        = send (requirePatch (regs ++ [reg]) reg) reg.ServiceUpdateURL
    ∧ (add send regs reg).regs = regs ++ [reg]
    ∧ (add send2 regs reg).regs = regs ++ [reg] :=
  ⟨h, rfl, rfl, rfl⟩

/-- regA is a newcomer of service A with callback cbA. -/
def regA : Registration := ⟨"A", "ua", [], "cbA"⟩

/-- sendFailElsewhere succeeds only on the callback of regA and fails on
every other URL, in particular on every fan out target. -/
def sendFailElsewhere : Send :=
  fun _ u => if u = "cbA" then none else some "boom"

/-- Witness for claim C5: with a dependent of A live, an oracle failing on
the fan out to that dependent leaves the returned value and the final state
identical to the always successful oracle. -/
theorem claim_C5_witness :
    (add sendOk [regB] regA).ret = (add sendFailElsewhere [regB] regA).ret
    ∧ (add sendOk [regB] regA).ret
        = sendOk (requirePatch ([regB] ++ [regA]) regA) regA.ServiceUpdateURL
    ∧ (add sendOk [regB] regA).regs = [regB] ++ [regA]
    ∧ (add sendFailElsewhere [regB] regA).regs = [regB] ++ [regA] :=
  claim_C5 sendOk sendFailElsewhere [regB] regA (by decide)

/-- Claim C9 amended (status corrected). ServiceURL uniqueness is not an
invariant the directory maintains: add appends unconditionally, so a single
add preserves uniqueness of the live URLs precisely when the incoming URL
is not already live; adding an already live URL always breaks it. -/
theorem claim_C9_amended (send : Send) (regs : List Registration)
    (reg : Registration) :
    ((add send regs reg).regs.map Registration.ServiceURL).Nodup
      ↔ (regs.map Registration.ServiceURL).Nodup
          ∧ reg.ServiceURL ∉ regs.map Registration.ServiceURL := by
  have h : (add send regs reg).regs = regs ++ [reg] := rfl
  rw [h]
  simp [List.nodup_append]

/-- rgdup is the registration added twice to break URL uniqueness. -/
def rgdup : Registration := ⟨"A", "u", [], "cb"⟩

/-- Counterexample for claim C9 as stated. The state holding rgdup twice is
reachable from the empty directory by two add operations, and it contains
two live registrations with the same ServiceURL. -/
theorem claim_C9_counterexample :
    Reachable [rgdup, rgdup]
    ∧ ¬ List.Pairwise (fun a b => a.ServiceURL ≠ b.ServiceURL)
        [rgdup, rgdup] := by
  constructor
  · have h0 := Reachable.stepAdd [] rgdup Reachable.empty
    have h1 : (add sendOk [] rgdup).regs = [rgdup] := rfl
    rw [h1] at h0
    have h2 := Reachable.stepAdd [rgdup] rgdup h0
    have h3 : (add sendOk [rgdup] rgdup).regs = [rgdup, rgdup] := rfl
    rw [h3] at h2
    exact h2
  · decide

/-- Witness for claim C9 amended: adding a fresh URL to a singleton
directory keeps the live URLs duplicate free. -/
theorem claim_C9_witness :
    ((add sendOk [regB] regA).regs.map Registration.ServiceURL).Nodup :=
  (claim_C9_amended sendOk [regB] regA).mpr (by decide)

end MiniReg
